import Mathlib

/-!
Verification of the result-decoding and driver-adapter layer of the cfd1
repository (Go).  The definitions below are a shallow embedding of the Go
source: `assign`, `createFieldMap`, the `Row`/`Rows` cursors (src/rows.go,
second revision), `convertSQLiteError` (src/errors.go), `convertTypes` and
the query parameter plumbing (src/query.go), and `Handle.QueryRow`
(src/unnamed/part_003).  Machine integers are modelled as `Int`/`Nat` with
explicit wrapping; Go float64 values are carried as `Rat` (no claim below
depends on binary floating-point rounding or formatting); Go `panic` is
modelled by `Option` results (`none` = uncontrolled failure).
-/

namespace Cfd1

/-- Width of a Go signed or unsigned integer kind.  `w` is the unsized
platform kind (`int` / `uint`, 64-bit here); the others are the sized kinds.
`reflect.Kind` distinguishes all of them. -/
inductive IntWidth where
  | w | w8 | w16 | w32 | w64
deriving DecidableEq, Repr

/-- Bit size of the width (`reflect.Type.Bits`); platform `int`/`uint` is
64-bit. -/
def IntWidth.bits : IntWidth → Nat
  | .w => 64 | .w8 => 8 | .w16 => 16 | .w32 => 32 | .w64 => 64

/-- Model of Go `time.Time`, reduced to the data the embedded code observes:
its Unix seconds (`Unix()`), location-independent.  The code only ever calls
`IsZero`, `UTC().Unix()`, and builds times via `time.Unix(sec, 0).UTC()` or
`time.Parse`, so seconds determine the value. -/
structure GoTime where
  unix : Int
deriving DecidableEq, Repr

/-- The zero `time.Time` (January 1, year 1, UTC) has these Unix seconds;
`IsZero` holds exactly of this value in the model. -/
def zeroGoTime : GoTime := ⟨-62135596800⟩

/-- Static Go types of the destination slots the claims quantify over.
`bytesT` is `[]byte` (modelled by its string content), `timeT` is
`time.Time`.  None of these implement `sql.Scanner`, so the scanner hook in
`assign` is never taken on them. -/
inductive GoType where
  | stringT
  | intT (w : IntWidth)
  | uintT (w : IntWidth)
  | float32T
  | float64T
  | boolT
  | bytesT
  | timeT
deriving DecidableEq, Repr

/-- Runtime Go values flowing through `assign`, `Scan` and `convertTypes`.
`null` is an untyped nil; `floatV` carries a float64 as an exact rational
(sources decoded from JSON are float64); `bytesV` models `[]byte` by its
textual content (claims never inspect individual bytes). -/
inductive GoVal where
  | null
  | intV (w : IntWidth) (v : Int)
  | uintV (w : IntWidth) (v : Nat)
  | floatV (v : Rat)
  | strV (s : String)
  | boolV (b : Bool)
  | bytesV (s : String)
  | timeV (t : GoTime)
deriving DecidableEq, Repr

/-- `reflect.Zero(t)`: the zero value of each modelled static type.  The zero
`[]byte` is the nil slice, modelled as empty content. -/
def zeroVal : GoType → GoVal
  | .stringT => .strV ""
  | .intT k => .intV k 0
  | .uintT k => .uintV k 0
  | .float32T => .floatV 0
  | .float64T => .floatV 0
  | .boolT => .boolV false
  | .bytesT => .bytesV ""
  | .timeT => .timeV zeroGoTime

/-- Runtime type of a non-null source value (`reflect.ValueOf(src).Type()`).
Float sources are float64 (the only float the decoder produces). -/
def srcType : GoVal → GoType
  | .null => .stringT -- unreachable: assign handles null before looking at the type
  | .intV k _ => .intT k
  | .uintV k _ => .uintT k
  | .floatV _ => .float64T
  | .strV _ => .stringT
  | .boolV _ => .boolT
  | .bytesV _ => .bytesT
  | .timeV _ => .timeT

/-- Numeric kinds in the sense of Go conversion rules. -/
def isNum : GoType → Bool
  | .intT _ => true
  | .uintT _ => true
  | .float32T => true
  | .float64T => true
  | _ => false

/-- Go `reflect.Type.ConvertibleTo` restricted to the modelled types: any
numeric pair, integer→string (the rune conversion), string↔`[]byte`,
and identical types. -/
def convertibleTo (st dt : GoType) : Bool :=
  if isNum st && isNum dt then true
  else match st, dt with
    | .intT _, .stringT => true
    | .uintT _, .stringT => true
    | .stringT, .stringT => true
    | .stringT, .bytesT => true
    | .bytesT, .stringT => true
    | .bytesT, .bytesT => true
    | .boolT, .boolT => true
    | .timeT, .timeT => true
    | _, _ => false

/-- Two's-complement wrap of an integer into a signed width (Go integer
conversion semantics). -/
def intWrap (w : IntWidth) (v : Int) : Int :=
  ((v + 2 ^ (w.bits - 1)) % 2 ^ w.bits) - 2 ^ (w.bits - 1)

/-- Wrap of an integer into an unsigned width. -/
def uintWrap (w : IntWidth) (v : Int) : Nat :=
  (v % 2 ^ w.bits).toNat

/-- Truncation of a rational toward zero (Go float→integer conversion
discards the fractional part). -/
def ratTrunc (q : Rat) : Int := Int.tdiv q.num (q.den : Int)

/-- Go `string(i)` for an integer `i`: the UTF-8 string of the code point
`i`, or the replacement character U+FFFD when `i` is not a valid code
point. -/
def runeString (v : Int) : String :=
  if (0 ≤ v ∧ v < 0xD800) ∨ (0xE000 ≤ v ∧ v ≤ 0x10FFFF) then
    String.mk [Char.ofNat v.toNat]
  else
    String.mk [Char.ofNat 0xFFFD]

/-- Go `reflect.Value.Convert` on the modelled types, defined on the pairs
`convertibleTo` accepts (identity elsewhere; those cases are unreachable in
`assign`).  float32 rounding is not modelled (no claim depends on it). -/
def convertVal (sv : GoVal) (dt : GoType) : GoVal :=
  match sv, dt with
  | .intV _ v, .intT w => .intV w (intWrap w v)
  | .intV _ v, .uintT w => .uintV w (uintWrap w v)
  | .intV _ v, .float32T => .floatV (v : Rat)
  | .intV _ v, .float64T => .floatV (v : Rat)
  | .intV _ v, .stringT => .strV (runeString v)
  | .uintV _ v, .intT w => .intV w (intWrap w (v : Int))
  | .uintV _ v, .uintT w => .uintV w (uintWrap w (v : Int))
  | .uintV _ v, .float32T => .floatV (v : Rat)
  | .uintV _ v, .float64T => .floatV (v : Rat)
  | .uintV _ v, .stringT => .strV (runeString (v : Int))
  | .floatV q, .intT w => .intV w (intWrap w (ratTrunc q))
  | .floatV q, .uintT w => .uintV w (uintWrap w (ratTrunc q))
  | .floatV q, .float32T => .floatV q
  | .floatV q, .float64T => .floatV q
  | .strV s, .stringT => .strV s
  | .strV s, .bytesT => .bytesV s
  | .bytesV s, .stringT => .strV s
  | .bytesV s, .bytesT => .bytesV s
  | .boolV b, .boolT => .boolV b
  | .timeV t, .timeT => .timeV t
  | v, _ => v

/-- Value of a digit character in the given base (hex letters allowed), as
`strconv` accepts it. -/
def digitVal (base : Nat) (c : Char) : Option Nat :=
  let v : Nat :=
    if '0' ≤ c ∧ c ≤ '9' then c.toNat - '0'.toNat
    else if 'a' ≤ c ∧ c ≤ 'z' then c.toNat - 'a'.toNat + 10
    else if 'A' ≤ c ∧ c ≤ 'Z' then c.toNat - 'A'.toNat + 10
    else 99
  if v < base then some v else none

/-- Accumulate the digits of a non-empty digit string in the given base. -/
def digitsVal (base : Nat) : List Char → Option Nat
  | [] => none
  | cs => go cs 0
where go : List Char → Nat → Option Nat
  | [], acc => some acc
  | c :: cs, acc =>
    match digitVal base c with
    | some d => go cs (acc * base + d)
    | none => none

/-- Base-prefix detection of `strconv.ParseInt`/`ParseUint` with base
argument 0: `0x`/`0X` hex, `0o`/`0O` octal, `0b`/`0B` binary, a remaining
leading `0` octal, else decimal.  Digit-separating underscores are not
modelled (no claim parses numerals). -/
def splitBase : List Char → Nat × List Char
  | '0' :: x :: rest =>
    if x = 'x' ∨ x = 'X' then (16, rest)
    else if x = 'o' ∨ x = 'O' then (8, rest)
    else if x = 'b' ∨ x = 'B' then (2, rest)
    else (8, x :: rest)
  | cs => (10, cs)

/-- Models `strconv.ParseUint(s, 0, bits)`: no sign, base-prefix detection,
failure (`none`) on syntax error or range overflow. -/
def goParseUint (s : String) (bits : Nat) : Option Nat :=
  let (base, digits) := splitBase s.data
  match digitsVal base digits with
  | some n => if n < 2 ^ bits then some n else none
  | none => none

/-- Models `strconv.ParseInt(s, 0, bits)`: optional sign, base-prefix
detection, failure on syntax error or range overflow. -/
def goParseInt (s : String) (bits : Nat) : Option Int :=
  let (neg, rest) :=
    match s.data with
    | '+' :: cs => (false, cs)
    | '-' :: cs => (true, cs)
    | cs => (false, cs)
  let (base, digits) := splitBase rest
  match digitsVal base digits with
  | some n =>
    if neg then
      if (n : Int) ≤ 2 ^ (bits - 1) then some (-(n : Int)) else none
    else
      if (n : Int) < 2 ^ (bits - 1) then some (n : Int) else none
  | none => none

/-- Models `strconv.ParseBool`: the fixed token set. -/
def goParseBool (s : String) : Option Bool :=
  if s = "1" ∨ s = "t" ∨ s = "T" ∨ s = "true" ∨ s = "TRUE" ∨ s = "True" then
    some true
  else if s = "0" ∨ s = "f" ∨ s = "F" ∨ s = "false" ∨ s = "FALSE" ∨ s = "False" then
    some false
  else none

/-- Models `strconv.ParseFloat(s, bits)` on the rational float model:
optional sign, decimal digits with optional fraction and exponent.  Binary
rounding to float32/float64 is not modelled (no claim depends on float
parsing). -/
def goParseFloat (s : String) : Option Rat :=
  let (neg, rest) :=
    match s.data with
    | '+' :: cs => (false, cs)
    | '-' :: cs => (true, cs)
    | cs => (false, cs)
  let intDigits := rest.takeWhile fun c => '0' ≤ c ∧ c ≤ '9'
  let rest2 := rest.dropWhile fun c => '0' ≤ c ∧ c ≤ '9'
  let (fracDigits, rest3) :=
    match rest2 with
    | '.' :: cs => (cs.takeWhile fun c => '0' ≤ c ∧ c ≤ '9',
                    cs.dropWhile fun c => '0' ≤ c ∧ c ≤ '9')
    | cs => ([], cs)
  let expPart : Option Int :=
    match rest3 with
    | [] => some 0
    | 'e' :: cs | 'E' :: cs =>
      let (eneg, ecs) :=
        match cs with
        | '+' :: ds => (false, ds)
        | '-' :: ds => (true, ds)
        | ds => (false, ds)
      match digitsVal 10 ecs with
      | some e => some (if eneg then -(e : Int) else (e : Int))
      | none => none
    | _ => none
  if intDigits.isEmpty ∧ fracDigits.isEmpty then none
  else
    match expPart with
    | none => none
    | some e =>
      let mantissa : Nat := (intDigits ++ fracDigits).foldl
        (fun acc c => acc * 10 + (c.toNat - '0'.toNat)) 0
      let q : Rat := (mantissa : Rat) * (10 : Rat) ^ (e - fracDigits.length)
      some (if neg then -q else q)

/-- Models `strconv.FormatBool`. -/
def goFormatBool (b : Bool) : String := if b then "true" else "false"

/-- Fractional decimal digits of `num/den` (`num < den`), up to `fuel`
digits, stopping when the remainder is zero. -/
def fracDigitsOf : Nat → Nat → Nat → List Char
  | 0, _, _ => []
  | _, 0, _ => []
  | fuel + 1, num, den =>
    if num = 0 then []
    else
      let d := num * 10 / den
      Char.ofNat ('0'.toNat + d) :: fracDigitsOf fuel (num * 10 % den) den

/-- Models `strconv.FormatFloat(f, 'f', -1, 64)` on the rational float
model: sign, integer part, and up to 40 exact fractional digits.  The
shortest-round-trip digit selection of binary float64 formatting is not
modelled (no claim depends on float formatting). -/
def goFormatFloat (q : Rat) : String :=
  let sign := if q < 0 then "-" else ""
  let n := q.num.natAbs
  let d := q.den
  let frac := fracDigitsOf 40 (n % d) d
  sign ++ toString (n / d) ++ (if frac.isEmpty then "" else "." ++ String.mk frac)

/-- Number of days in a month of the (proleptic) Gregorian calendar. -/
def daysInMonth (year : Int) (month : Nat) : Nat :=
  let leap := (year % 4 = 0 ∧ year % 100 ≠ 0) ∨ year % 400 = 0
  match month with
  | 1 => 31 | 2 => if leap then 29 else 28 | 3 => 31 | 4 => 30
  | 5 => 31 | 6 => 30 | 7 => 31 | 8 => 31
  | 9 => 30 | 10 => 31 | 11 => 30 | 12 => 31
  | _ => 0

/-- Days since the Unix epoch of a Gregorian date (civil-days formula,
floor divisions). -/
def daysFromCivil (year : Int) (month day : Nat) : Int :=
  let y : Int := if month ≤ 2 then year - 1 else year
  let era : Int := (if 0 ≤ y then y else y - 399).fdiv 400
  let yoe : Int := y - era * 400
  let mp : Int := if month > 2 then (month : Int) - 3 else (month : Int) + 9
  let doy : Int := (153 * mp + 2).fdiv 5 + (day : Int) - 1
  let doe : Int := yoe * 365 + yoe.fdiv 4 - yoe.fdiv 100 + doy
  era * 146097 + doe - 719468

/-- Read exactly `n` decimal digits from the front of the list. -/
def takeDigits (n : Nat) (cs : List Char) : Option (Nat × List Char) :=
  let ds := cs.take n
  if ds.length = n ∧ ds.all fun c => '0' ≤ c ∧ c ≤ '9' then
    some (ds.foldl (fun acc c => acc * 10 + (c.toNat - '0'.toNat)) 0, cs.drop n)
  else none

/-- Models `time.Parse(time.RFC3339, s)`, reduced to the Unix seconds of the
result: `YYYY-MM-DDThh:mm:ss`, optional fractional seconds (accepted,
truncated — `Unix()` ignores them), then `Z` or a `±hh:mm` offset.  Field
range validation (month, day-in-month, hour, minute, second, offset)
follows the Go parser. -/
def goParseRFC3339 (s : String) : Option GoTime :=
  match takeDigits 4 s.data with
  | none => none
  | some (year, r1) =>
  match r1 with
  | '-' :: r2 =>
    match takeDigits 2 r2 with
    | none => none
    | some (month, r3) =>
    match r3 with
    | '-' :: r4 =>
      match takeDigits 2 r4 with
      | none => none
      | some (day, r5) =>
      match r5 with
      | 'T' :: r6 =>
        match takeDigits 2 r6 with
        | none => none
        | some (hh, r7) =>
        match r7 with
        | ':' :: r8 =>
          match takeDigits 2 r8 with
          | none => none
          | some (mi, r9) =>
          match r9 with
          | ':' :: r10 =>
            match takeDigits 2 r10 with
            | none => none
            | some (ss, r11) =>
            let r12 :=
              match r11 with
              | '.' :: cs =>
                if (cs.takeWhile fun c => '0' ≤ c ∧ c ≤ '9').isEmpty then r11
                else cs.dropWhile fun c => '0' ≤ c ∧ c ≤ '9'
              | cs => cs
            let offset : Option Int :=
              match r12 with
              | ['Z'] => some 0
              | sign :: rest =>
                if sign = '+' ∨ sign = '-' then
                  match takeDigits 2 rest with
                  | some (oh, ':' :: r13) =>
                    match takeDigits 2 r13 with
                    | some (om, []) =>
                      if oh < 24 ∧ om < 60 then
                        let o : Int := (oh : Int) * 3600 + (om : Int) * 60
                        some (if sign = '-' then -o else o)
                      else none
                    | _ => none
                  | _ => none
                else none
              | [] => none
            match offset with
            | none => none
            | some off =>
              if 1 ≤ month ∧ month ≤ 12 ∧ 1 ≤ day ∧
                  day ≤ daysInMonth (year : Int) month ∧
                  hh < 24 ∧ mi < 60 ∧ ss < 60 then
                some ⟨daysFromCivil (year : Int) month day * 86400 +
                  (hh : Int) * 3600 + (mi : Int) * 60 + (ss : Int) - off⟩
              else none
          | _ => none
        | _ => none
      | _ => none
    | _ => none
  | _ => none

/-- Errors of the embedded layer.  `noRows` is `sql.ErrNoRows`; `d1` is
`*D1Error` (code + message); `sqlite` is `*SQLiteError` (message, query,
bindings, SQLite code); `str` is a plain `fmt.Errorf` message; `wrap` is
`fmt.Errorf("...: %w", err)`. -/
inductive GoError where
  | noRows
  | errSQLite
  | errNotFound
  | d1 (code : Int) (msg : String)
  | sqlite (message query : String) (bindings : List GoVal) (sqliteCode : String)
  | str (msg : String)
  | wrap (prefixMsg : String) (inner : GoError)
deriving DecidableEq, Repr

/-- Embedding of `assign(dest, src)` from src/rows.go (lines 512-660 of the
current revision).  The destination is an addressable slot of static type
`dt` (a non-nil pointer in the source; the nil-pointer error branch is
outside the modelled inputs), and none of the modelled destination types
implement `sql.Scanner`, so the scanner hook is skipped.  Returns the value
stored into the destination, or the conversion error. -/
def assign (dt : GoType) (src : GoVal) : Except GoError GoVal :=
  match src with
  -- fast path for nil: zero the destination
  | .null => .ok (zeroVal dt)
  | sv =>
    let st := srcType sv
    -- special cases before ConvertibleTo: the guard accepts only the
    -- unsized Int and Uint kinds (`st.Kind() == reflect.Int || st.Kind()
    -- == reflect.Uint`), so the sized widths fall through to Convert
    match sv, dt with
    | .intV .w v, .stringT => .ok (.strV (toString v))
    | .uintV .w v, .stringT => .ok (.strV (toString v))
    | sv, dt =>
      -- if types convert directly, fast path
      if convertibleTo st dt then .ok (convertVal sv dt)
      else
        -- special case conversions, by destination kind
        match dt, sv with
        | .stringT, .floatV q => .ok (.strV (goFormatFloat q))
        | .stringT, .boolV b => .ok (.strV (goFormatBool b))
        | .intT k, .strV s =>
          match goParseInt s k.bits with
          | some i => .ok (.intV k i)
          | none => .error (.str "cannot convert value to destination type")
        | .intT k, .boolV b => .ok (.intV k (if b then 1 else 0))
        | .uintT k, .strV s =>
          match goParseUint s k.bits with
          | some n => .ok (.uintV k n)
          | none => .error (.str "cannot convert value to destination type")
        | .uintT k, .boolV b => .ok (.uintV k (if b then 1 else 0))
        | .float32T, .strV s =>
          match goParseFloat s with
          | some q => .ok (.floatV q)
          | none => .error (.str "cannot convert value to destination type")
        | .float64T, .strV s =>
          match goParseFloat s with
          | some q => .ok (.floatV q)
          | none => .error (.str "cannot convert value to destination type")
        | .float32T, .boolV b => .ok (.floatV (if b then 1 else 0))
        | .float64T, .boolV b => .ok (.floatV (if b then 1 else 0))
        | .boolT, .strV s =>
          match goParseBool s with
          | some b => .ok (.boolV b)
          | none => .error (.str "cannot convert value to destination type")
        | .boolT, .intV _ v => .ok (.boolV (v ≠ 0))
        | .boolT, .uintV _ v => .ok (.boolV (v ≠ 0))
        | .boolT, .floatV q => .ok (.boolV (q ≠ 0))
        -- struct destination: only time.Time, fed by Unix seconds or text
        | .timeT, .intV _ v => .ok (.timeV ⟨v⟩)
        | .timeT, .uintV _ v => .ok (.timeV ⟨(v : Int)⟩)
        | .timeT, .floatV q => .ok (.timeV ⟨ratTrunc q⟩)
        | .timeT, .strV s =>
          match goParseRFC3339 s with
          | some t => .ok (.timeV t)
          | none =>
            match goParseInt s 64 with
            | some i => .ok (.timeV ⟨i⟩)
            | none => .error (.str "cannot convert value to destination type")
        | _, _ => .error (.str "cannot convert value to destination type")

/-- The `Results` payload of a raw query result: column names and rectangular
row data (src/query.go). -/
structure RawResults where
  columns : List String
  rows : List (List GoVal)
deriving DecidableEq, Repr

/-- `RawQueryResult` (src/query.go); the `Meta` and `Success` fields are
never read by the cursor code and are omitted. -/
structure RawQueryResult where
  results : RawResults
deriving DecidableEq, Repr

/-- `Row` (src/rows.go): one optional result set plus an optional carried
error.  The cached `fieldMap` is only used by `ScanStruct` and is omitted. -/
structure Row where
  result : Option RawQueryResult
  err : Option GoError
deriving DecidableEq, Repr

/-- `newRow` (src/rows.go lines 333-339). -/
def newRow (result : Option RawQueryResult) (err : Option GoError) : Row :=
  match err with
  | some e => ⟨none, some e⟩
  | none => ⟨result, none⟩

/-- `Row.Err` (src/rows.go lines 358-372) for a non-nil receiver. -/
def Row.errOf (r : Row) : Option GoError :=
  match r.err with
  | some e => some e
  | none =>
    match r.result with
    | none => some .noRows
    | some rs => if rs.results.rows.length = 0 then some .noRows else none

/-- A scan destination: an addressable slot with its static type and the
value it currently holds. -/
def Slot := GoType × GoVal
deriving instance DecidableEq, Repr for Slot

/-- The positional loop shared by `Row.Scan` and `Rows.Scan` (src/rows.go):
`for i, col := range row { if i >= len(dest) { break }; assign ... }`.
Returns the destination slots after the loop together with the error, if an
`assign` failed (wrapped as `column %d: %w`); slots at and after a failing
column keep their old values, as do slots past the row's length. -/
def scanVals (i : Nat) : List GoVal → List Slot → List Slot × Option GoError
  | _, [] => ([], none)
  | [], dests => (dests, none)
  | v :: vs, (t, old) :: dests =>
    match assign t v with
    | .error e => ((t, old) :: dests, some (.wrap ("column " ++ toString i) e))
    | .ok wv =>
      let (dests', err) := scanVals (i + 1) vs dests
      ((t, wv) :: dests', err)

/-- `Row.Scan` (src/rows.go lines 375-391).  `none` models a panic; here the
`Err()` guard makes the `Rows[0]` access safe, so the result is `some` for
every constructible `Row`. -/
def Row.scan (r : Row) (dests : List Slot) : Option (List Slot × Option GoError) :=
  match r.errOf with
  | some e => some (dests, some e)
  | none =>
    match r.result with
    | none => none
    | some rs =>
      match rs.results.rows with
      | [] => none
      | row :: _ => some (scanVals 0 row dests)

/-- `Rows` (src/rows.go): the full list of result sets, the active-set
pointer `rs`, the row cursor `current`, the set cursor `currentSet`, and the
carried error.  The cached `fieldMap` is omitted (only `ScanStruct` uses
it).  The nil-slice and empty-slice cases of `result` behave identically in
every modelled operation, so `result` is a plain list. -/
structure RowsState where
  result : List RawQueryResult
  rs : Option RawQueryResult
  current : Int
  currentSet : Int
  err : Option GoError
deriving DecidableEq, Repr

/-- `newRows` (src/rows.go lines 341-355).  On error the remaining fields
take their Go zero values (`current = 0`, not `-1`). -/
def newRows (result : List RawQueryResult) (err : Option GoError) : RowsState :=
  match err with
  | some e => ⟨[], none, 0, 0, some e⟩
  | none => ⟨result, result.head?, -1, 0, none⟩

/-- Go slice indexing with an `int` index: `none` models the out-of-range
panic (negative or too large). -/
def goIndex {α : Type} (l : List α) (i : Int) : Option α :=
  if i < 0 then none else l.get? i.toNat

/-- `Rows.Err` (src/rows.go lines 418-432) for a non-nil receiver.  The
outer `none` models a panic (nil `rs` dereference when the first two
disjuncts fail); `some e?` is the returned error.  The first disjunct
`r.result == nil` is subsumed by the length test. -/
def RowsState.errOf (r : RowsState) : Option (Option GoError) :=
  match r.err with
  | some e => some (some e)
  | none =>
    if r.currentSet ≥ (r.result.length : Int) then some (some .noRows)
    else
      match r.rs with
      | none => none
      | some rs => if rs.results.rows.length = 0 then some (some .noRows) else some none

/-- `Rows.Next` (src/rows.go lines 434-445): `none` models a panic; `some
(b, r')` is the returned boolean and the mutated state.  Note the increment
of `current` happens on every call with `Err() == nil`, even past the end of
the active set. -/
def RowsState.next (r : RowsState) : Option (Bool × RowsState) :=
  match r.errOf with
  | none => none
  | some (some _) => some (false, r)
  | some none =>
    let r' := { r with current := r.current + 1 }
    match r'.rs with
    | none => none
    | some rs => some (decide (r'.current < (rs.results.rows.length : Int)), r')

/-- `Rows.NextSet` (src/rows.go lines 447-460): resets `current`, advances
`currentSet` (both even when the sets are exhausted), and repoints `rs` only
on success. -/
def RowsState.nextSet (r : RowsState) : Option (Bool × RowsState) :=
  match r.errOf with
  | none => none
  | some (some _) => some (false, r)
  | some none =>
    let r' := { r with current := -1, currentSet := r.currentSet + 1 }
    if r'.currentSet ≥ (r.result.length : Int) then some (false, r')
    else
      match goIndex r.result r'.currentSet with
      | none => none
      | some rsNew => some (true, { r' with rs := some rsNew })

/-- `Rows.Scan` (src/rows.go lines 462-482): after the `Err()` guard, only
the upper bound of `current` is checked; the row access
`r.rs.Results.Rows[r.current]` panics (`none`) for `current < 0`. -/
def RowsState.scan (r : RowsState) (dests : List Slot) :
    Option (List Slot × Option GoError) :=
  match r.errOf with
  | none => none
  | some (some e) => some (dests, some e)
  | some none =>
    match r.rs with
    | none => none
    | some rs =>
      if r.current ≥ (rs.results.rows.length : Int) then some (dests, some .noRows)
      else
        match goIndex rs.results.rows r.current with
        | none => none
        | some row => some (scanVals 0 row dests)

/-- `Handle.QueryRow` (src/unnamed/part_003 lines 61-64): the call
`newRow(&result[0], err)` evaluates `&result[0]` before `newRow` runs, so an
empty (in particular nil) result slice panics (`none`) regardless of
`err`. -/
def handleQueryRow (result : List RawQueryResult) (err : Option GoError) :
    Option Row :=
  match result.head? with
  | none => none
  | some r0 => some (newRow (some r0) err)

/-- `Handle.QueryRows` (src/unnamed/part_003 lines 68-71). -/
def handleQueryRows (result : List RawQueryResult) (err : Option GoError) :
    RowsState :=
  newRows result err

/-- Models `strings.ToLower` on the ASCII names and tags appearing in
field mappings (`String.map` does not reduce in the kernel, so the map is
taken over the character list; Unicode case folding is not modelled). -/
def strToLower (s : String) : String :=
  String.mk (s.data.map Char.toLower)

/-- One field of a destination struct type: its name and the values of the
three recognized tags, the empty string meaning "tag absent" exactly as
`reflect.StructTag.Get` reports it. -/
structure GoStructField where
  name : String
  dbTag : String
  sqlTag : String
  jsonTag : String
deriving DecidableEq, Repr

/-- A Go `map[string]int`, modelled extensionally by its lookup function. -/
def FieldMap := String → Option Nat

/-- `fieldMap[k] = i`: map insertion, overwriting any previous binding. -/
def mapInsert (m : FieldMap) (k : String) (i : Nat) : FieldMap :=
  fun x => if x = k then some i else m x

/-- The body of one iteration of the `createFieldMap` loop (src/rows.go
lines 662-698): db tag first, then sql, then json, each skipping the field
entirely on the `-` marker; otherwise the lower-cased field name. -/
def fieldMapStep (m : FieldMap) (i : Nat) (f : GoStructField) : FieldMap :=
  if f.dbTag ≠ "" then
    if f.dbTag = "-" then m else mapInsert m f.dbTag i
  else if f.sqlTag ≠ "" then
    if f.sqlTag = "-" then m else mapInsert m f.sqlTag i
  else if f.jsonTag ≠ "" then
    if f.jsonTag = "-" then m else mapInsert m f.jsonTag i
  else
    mapInsert m (strToLower f.name) i

/-- The `createFieldMap` loop from field index `i` onward. -/
def createFieldMapFrom (i : Nat) (m : FieldMap) : List GoStructField → FieldMap
  | [] => m
  | f :: rest => createFieldMapFrom (i + 1) (fieldMapStep m i f) rest

/-- `createFieldMap` (src/rows.go lines 662-698), over the ordered field
list of the struct type. -/
def createFieldMap (fields : List GoStructField) : FieldMap :=
  createFieldMapFrom 0 (fun _ => none) fields

/-- Modelled from the spec (§4.2): the column key of one field, "checking,
in fixed priority order, up to three recognized binding annotations; the
first present annotation wins", the `-` marker excluding the field, and the
lower-cased field name as fallback.  Used to state the refinement theorem
for `createFieldMap`. -/
def specFieldKey (f : GoStructField) : Option String :=
  if f.dbTag ≠ "" then
    if f.dbTag = "-" then none else some f.dbTag
  else if f.sqlTag ≠ "" then
    if f.sqlTag = "-" then none else some f.sqlTag
  else if f.jsonTag ≠ "" then
    if f.jsonTag = "-" then none else some f.jsonTag
  else
    some (strToLower f.name)

/-- Spec-side mapping: insert each field's key (when it has one) in order. -/
def specFieldMapFrom (i : Nat) (m : FieldMap) : List GoStructField → FieldMap
  | [] => m
  | f :: rest =>
    specFieldMapFrom (i + 1)
      (match specFieldKey f with
       | some k => mapInsert m k i
       | none => m) rest

/-- Spec-side field mapping for a whole struct type. -/
def specFieldMap (fields : List GoStructField) : FieldMap :=
  specFieldMapFrom 0 (fun _ => none) fields

/-- Does the pattern occur at the head of the list? (`strings.HasPrefix` on
character lists.) -/
def leadsWith : List Char → List Char → Bool
  | [], _ => true
  | _ :: _, [] => false
  | a :: as, b :: bs => a = b && leadsWith as bs

/-- First-occurrence split: `strings.SplitN(s, sep, 2)` returns
`[before, after]` at the first occurrence of `sep`, or `none` when `sep`
does not occur. -/
def splitFirst (sep : List Char) : List Char → Option (List Char × List Char)
  | [] => if sep.isEmpty then some ([], []) else none
  | c :: rest =>
    if leadsWith sep (c :: rest) then some ([], (c :: rest).drop sep.length)
    else
      match splitFirst sep rest with
      | some (b, a) => some (c :: b, a)
      | none => none

/-- The marker `": SQLITE_"` that `convertSQLiteError` splits on. -/
def sqliteMarker : List Char := (": SQLITE_").data

/-- `errors.As(err, &d1Err)`: find a `*D1Error` in the wrap chain. -/
def asD1 : GoError → Option (Int × String)
  | .d1 code msg => some (code, msg)
  | .wrap _ inner => asD1 inner
  | _ => none

/-- `convertSQLiteError` (src/errors.go lines 71-83): a `D1Error` with code
7500 becomes a `SQLiteError` whose message is the part before the first
`": SQLITE_"` and whose code is `"SQLITE_"` plus the part after it,
defaulting to `"SQLITE_ERROR"` when the marker is absent; any other error is
returned unchanged. -/
def convertSQLiteError (err : GoError) (query : String) (bindings : List GoVal) :
    GoError :=
  match asD1 err with
  | some (code, msg) =>
    if code = 7500 then
      match splitFirst sqliteMarker msg.data with
      | some (pre, post) =>
        .sqlite (String.mk pre) query bindings (String.mk (("SQLITE_").data ++ post))
      | none => .sqlite msg query bindings "SQLITE_ERROR"
    else err
  | none => err

/-- The per-element transformation of `convertTypes` (src/query.go lines
40-63): a `time.Time` becomes its UTC Unix seconds as an `int` (`0` for the
zero time), a `bool` becomes `int` 1 or 0, everything else passes through. -/
def convertParam : GoVal → GoVal
  | .timeV t => if t = zeroGoTime then .intV .w 0 else .intV .w t.unix
  | .boolV b => .intV .w (if b then 1 else 0)
  | v => v

/-- `convertTypes` (src/query.go lines 40-63). -/
def convertTypes (input : List GoVal) : List GoVal :=
  input.map convertParam

/-- The `params` field of the request body built by `Client.Query`
(src/query.go lines 70-82): the source applies `convertTypes` to the
parameters and then once more when assembling the body. -/
def clientQueryParams (params : List GoVal) : List GoVal :=
  convertTypes (convertTypes params)

/-- The `params` field of the request body built by `Client.RawQuery`
(src/query.go lines 97-109). -/
def clientRawQueryParams (params : List GoVal) : List GoVal :=
  convertTypes params

/-- Iterate `Rows.Next` a number of times, keeping the final state
(`none` once any call panics). -/
def applyNexts : Nat → RowsState → Option RowsState
  | 0, r => some r
  | n + 1, r =>
    match r.next with
    | none => none
    | some (_, r') => applyNexts n r'

/-- The boolean returned by the `k`-th call (1-based) of `Rows.Next` on a
cursor, `none` if any call panics. -/
def nthNext (r : RowsState) (k : Nat) : Option Bool :=
  match applyNexts (k - 1) r with
  | none => none
  | some s =>
    match s.next with
    | none => none
    | some (b, _) => some b

/-- A cursor operation: the three mutating/observing calls a caller can
make on `Rows`. -/
inductive RowsOp where
  | next
  | nextSet
  | scan (dests : List Slot)

/-- Apply one cursor operation, keeping the successor state (`Scan` never
mutates the cursor); `none` models a panic. -/
def applyOp (r : RowsState) : RowsOp → Option RowsState
  | .next => (r.next).map Prod.snd
  | .nextSet => (r.nextSet).map Prod.snd
  | .scan dests => (r.scan dests).map fun _ => r

/-- Apply a sequence of cursor operations. -/
def applyOps (r : RowsState) : List RowsOp → Option RowsState
  | [] => some r
  | op :: ops =>
    match applyOp r op with
    | none => none
    | some r' => applyOps r' ops

/-- The state invariant `Rows` actually maintains: `currentSet ∈ [0, N]`
(the upper bound `N` is reached at set exhaustion), `current ≥ -1` (it is
unbounded above: `Next` keeps incrementing past the active set's row
count), and while `currentSet` is in range the active-set pointer `rs`
aliases `result[currentSet]`. -/
def RowsInv (r : RowsState) : Prop :=
  0 ≤ r.currentSet ∧ r.currentSet ≤ r.result.length ∧ -1 ≤ r.current ∧
    (r.err = none → r.currentSet < r.result.length →
      goIndex r.result r.currentSet = r.rs)

section SplitLemmas

lemma leadsWith_iff (sep l : List Char) :
    leadsWith sep l = true ↔ ∃ t, l = sep ++ t := by
  induction sep generalizing l with
  | nil => simp [leadsWith]
  | cons a as ih =>
    cases l with
    | nil => simp [leadsWith]
    | cons b bs =>
      simp only [leadsWith, Bool.and_eq_true, decide_eq_true_eq, ih bs]
      constructor
      · rintro ⟨rfl, t, rfl⟩; exact ⟨t, rfl⟩
      · rintro ⟨t, h⟩
        injection h with h1 h2
        exact ⟨h1.symm, t, h2⟩

lemma splitFirst_sound (sep l b a : List Char)
    (h : splitFirst sep l = some (b, a)) : l = b ++ sep ++ a := by
  induction l generalizing b with
  | nil =>
    by_cases hs : sep.isEmpty
    · simp only [splitFirst, hs, if_true, Option.some.injEq, Prod.mk.injEq] at h
      obtain ⟨rfl, rfl⟩ := h
      simp [List.isEmpty_iff.mp hs]
    · simp [splitFirst, hs] at h
  | cons c rest ih =>
    by_cases hl : leadsWith sep (c :: rest) = true
    · obtain ⟨t, ht⟩ := (leadsWith_iff sep (c :: rest)).mp hl
      simp only [splitFirst, hl, if_true, Option.some.injEq, Prod.mk.injEq] at h
      obtain ⟨rfl, rfl⟩ := h
      simp [ht, List.drop_left]
    · simp only [splitFirst, hl] at h
      cases hrec : splitFirst sep rest with
      | none => simp [hrec] at h
      | some p =>
        obtain ⟨b0, a0⟩ := p
        simp only [hrec, Option.some.injEq, Prod.mk.injEq] at h
        obtain ⟨rfl, rfl⟩ := h
        simp [ih b0 hrec]

lemma splitFirst_isSome (sep b a : List Char) :
    (splitFirst sep (b ++ (sep ++ a))).isSome = true := by
  induction b with
  | nil =>
    rw [List.nil_append]
    cases hsep : sep ++ a with
    | nil =>
      have hs : sep = [] := by
        cases sep with
        | nil => rfl
        | cons x xs => simp at hsep
      simp [splitFirst, hs]
    | cons c rest =>
      have hw : leadsWith sep (c :: rest) = true := by
        rw [← hsep]
        exact (leadsWith_iff _ _).mpr ⟨a, rfl⟩
      simp [splitFirst, hw]
  | cons c bs ih =>
    rw [List.cons_append]
    by_cases hw : leadsWith sep (c :: (bs ++ (sep ++ a))) = true
    · simp [splitFirst, hw]
    · simp only [splitFirst]
      rw [if_neg hw]
      cases hrec : splitFirst sep (bs ++ (sep ++ a)) with
      | none => rw [hrec] at ih; simp at ih
      | some p =>
        obtain ⟨b0, a0⟩ := p
        simp

lemma splitFirst_complete (sep l : List Char) (h : splitFirst sep l = none) :
    ∀ b a, l ≠ b ++ sep ++ a := by
  intro b a hl
  have := splitFirst_isSome sep b a
  rw [← List.append_assoc, ← hl, h] at this
  simp at this

lemma splitFirst_minimal (sep : List Char) :
    ∀ (l b a : List Char), splitFirst sep l = some (b, a) →
      ∀ b' a', l = b' ++ sep ++ a' → b.length ≤ b'.length := by
  intro l
  induction l with
  | nil =>
    intro b a h b' a' _
    by_cases hs : sep.isEmpty
    · simp only [splitFirst, hs, if_true, Option.some.injEq, Prod.mk.injEq] at h
      obtain ⟨rfl, rfl⟩ := h
      simp
    · simp [splitFirst, hs] at h
  | cons c rest ih =>
    intro b a h b' a' hdec
    by_cases hw : leadsWith sep (c :: rest) = true
    · simp only [splitFirst, hw, if_true, Option.some.injEq, Prod.mk.injEq] at h
      obtain ⟨rfl, rfl⟩ := h
      simp
    · simp only [splitFirst, hw] at h
      cases b' with
      | nil =>
        exfalso
        apply hw
        exact (leadsWith_iff sep (c :: rest)).mpr ⟨a', by simpa using hdec⟩
      | cons c' bs' =>
        cases hrec : splitFirst sep rest with
        | none => rw [hrec] at h; simp at h
        | some p =>
          obtain ⟨b0, a0⟩ := p
          rw [hrec] at h
          have hb : c :: b0 = b := congrArg Prod.fst (Option.some.inj h)
          have htail : rest = bs' ++ sep ++ a' := by
            simpa using congrArg List.tail hdec
          have hrecur := ih b0 a0 hrec bs' a' htail
          rw [← hb]
          simpa using Nat.succ_le_succ hrecur

end SplitLemmas

section ScanLemmas

lemma scanVals_length (i : Nat) (row : List GoVal) (dests : List Slot) :
    (scanVals i row dests).1.length = dests.length := by
  induction row generalizing i dests with
  | nil => cases dests <;> simp [scanVals]
  | cons v vs ih =>
    cases dests with
    | nil => simp [scanVals]
    | cons d ds =>
      obtain ⟨t, old⟩ := d
      simp only [scanVals]
      cases assign t v with
      | error e => simp
      | ok wv => simp [ih (i + 1) ds]

lemma scanVals_frame (i : Nat) (row : List GoVal) (dests : List Slot)
    (j : Nat) (hj : row.length ≤ j) :
    (scanVals i row dests).1[j]? = dests[j]? := by
  induction row generalizing i dests j with
  | nil => cases dests <;> simp [scanVals]
  | cons v vs ih =>
    cases dests with
    | nil => simp [scanVals]
    | cons d ds =>
      obtain ⟨t, old⟩ := d
      simp only [scanVals]
      cases assign t v with
      | error e => simp
      | ok wv =>
        cases j with
        | zero => simp at hj
        | succ j' =>
          simp only [List.length_cons, Nat.succ_le_succ_iff] at hj
          simp [ih (i + 1) ds j' hj]

lemma scanVals_take (i : Nat) (row : List GoVal) (dests : List Slot) :
    scanVals i (row.take dests.length) dests = scanVals i row dests := by
  induction row generalizing i dests with
  | nil => simp
  | cons v vs ih =>
    cases dests with
    | nil => simp [scanVals]
    | cons d ds =>
      obtain ⟨t, old⟩ := d
      simp only [List.length_cons, List.take_succ_cons, scanVals]
      cases assign t v with
      | error e => rfl
      | ok wv => simp [ih (i + 1) ds]

lemma scanVals_ok (i : Nat) (row : List GoVal) (dests : List Slot)
    (h : ∀ j t old v, dests.get? j = some (t, old) → row.get? j = some v →
      ∃ wv, assign t v = .ok wv) :
    (scanVals i row dests).2 = none := by
  induction row generalizing i dests with
  | nil => cases dests <;> simp [scanVals]
  | cons v vs ih =>
    cases dests with
    | nil => simp [scanVals]
    | cons d ds =>
      obtain ⟨t, old⟩ := d
      simp only [scanVals]
      obtain ⟨wv, hwv⟩ := h 0 t old v rfl rfl
      rw [hwv]
      simp only
      exact ih (i + 1) ds fun j t' old' v' hd hr =>
        h (j + 1) t' old' v' (by simpa using hd) (by simpa using hr)

end ScanLemmas

section CursorLemmas

lemma errOf_none_cases (r : RowsState) (h : r.errOf = some none) :
    r.err = none ∧ r.currentSet < (r.result.length : Int) ∧
      ∃ rsA, r.rs = some rsA ∧ rsA.results.rows.length ≠ 0 := by
  unfold RowsState.errOf at h
  cases herr : r.err with
  | some e => simp [herr] at h
  | none =>
    simp only [herr] at h
    by_cases hcs : r.currentSet ≥ (r.result.length : Int)
    · simp [hcs] at h
    · simp only [if_neg hcs] at h
      cases hrs : r.rs with
      | none => simp [hrs] at h
      | some rsA =>
        simp only [hrs] at h
        by_cases hlen : rsA.results.rows.length = 0
        · simp [hlen] at h
        · exact ⟨rfl, lt_of_not_ge hcs, rsA, rfl, hlen⟩

lemma errOf_none_intro (r : RowsState) (rsA : RawQueryResult)
    (herr : r.err = none) (hcs : r.currentSet < (r.result.length : Int))
    (hrs : r.rs = some rsA) (hlen : rsA.results.rows.length ≠ 0) :
    r.errOf = some none := by
  unfold RowsState.errOf
  simp only [herr, hrs]
  rw [if_neg (not_le.mpr hcs), if_neg hlen]

lemma next_step (r : RowsState) (rsA : RawQueryResult)
    (h : r.errOf = some none) (hrs : r.rs = some rsA) :
    r.next = some (decide (r.current + 1 < (rsA.results.rows.length : Int)),
      { r with current := r.current + 1 }) := by
  unfold RowsState.next
  rw [h]
  simp [hrs]

/-- Plain cursor state used while counting `Next` calls: the fresh cursor
over `sets` with row cursor `c`. -/
def freshAt (sets : List RawQueryResult) (rs0 : RawQueryResult) (c : Int) :
    RowsState :=
  ⟨sets, some rs0, c, 0, none⟩

lemma freshAt_errOf (sets : List RawQueryResult) (rs0 : RawQueryResult)
    (c : Int) (hne : sets ≠ []) (hlen : rs0.results.rows.length ≠ 0) :
    (freshAt sets rs0 c).errOf = some none := by
  apply errOf_none_intro (freshAt sets rs0 c) rs0 _ _ rfl hlen
  · rfl
  · show (0 : Int) < (sets.length : Int)
    have : 0 < sets.length := List.length_pos.mpr hne
    exact_mod_cast this

lemma applyNexts_fresh (sets : List RawQueryResult) (rs0 : RawQueryResult)
    (hne : sets ≠ []) (hlen : rs0.results.rows.length ≠ 0) :
    ∀ (j : Nat) (c : Int),
      applyNexts j (freshAt sets rs0 c) = some (freshAt sets rs0 (c + j)) := by
  intro j
  induction j with
  | zero => intro c; simp [applyNexts]
  | succ n ih =>
    intro c
    have hstep := next_step (freshAt sets rs0 c) rs0
      (freshAt_errOf sets rs0 c hne hlen) rfl
    simp only [applyNexts, hstep]
    show applyNexts n (freshAt sets rs0 (c + 1)) =
      some (freshAt sets rs0 (c + ((n + 1 : Nat) : Int)))
    rw [ih (c + 1)]
    have harith : c + 1 + (n : Int) = c + ((n + 1 : Nat) : Int) := by
      push_cast
      ring
    rw [harith]

lemma nthNext_fresh (sets : List RawQueryResult) (rs0 : RawQueryResult)
    (hne : sets ≠ []) (hlen : rs0.results.rows.length ≠ 0) (k : Nat)
    (hk : 1 ≤ k) :
    nthNext (freshAt sets rs0 (-1)) k =
      some (decide ((k : Int) - 1 < (rs0.results.rows.length : Int))) := by
  have h1 := applyNexts_fresh sets rs0 hne hlen (k - 1) (-1)
  have h2 := next_step (freshAt sets rs0 (-1 + ((k - 1 : Nat) : Int))) rs0
    (freshAt_errOf sets rs0 _ hne hlen) rfl
  simp only [nthNext, h1, h2]
  have harith : (-1 : Int) + ((k - 1 : Nat) : Int) + 1 = (k : Int) - 1 := by
    omega
  show some (decide ((-1 : Int) + ((k - 1 : Nat) : Int) + 1 <
    (rs0.results.rows.length : Int))) = _
  rw [harith]

lemma goIndex_some {α : Type} (l : List α) (i : Int) (h0 : 0 ≤ i)
    (hlt : i < (l.length : Int)) : ∃ x, goIndex l i = some x := by
  unfold goIndex
  rw [if_neg (not_lt.mpr h0)]
  have hn : i.toNat < l.length := by omega
  exact ⟨l.get ⟨i.toNat, hn⟩, List.get?_eq_get hn⟩

lemma nextSet_step (r : RowsState)
    (h : r.errOf = some none) (hge : 0 ≤ r.currentSet) :
    ∃ r', r.nextSet =
        some (decide (r.currentSet + 1 < (r.result.length : Int)), r') ∧
      r'.current = -1 ∧ r'.currentSet = r.currentSet + 1 ∧
      r'.result = r.result ∧ r'.err = none ∧
      (r.currentSet + 1 < (r.result.length : Int) →
        goIndex r.result (r.currentSet + 1) = r'.rs) := by
  obtain ⟨herr, _, -⟩ := errOf_none_cases r h
  unfold RowsState.nextSet
  rw [h]
  by_cases hb : r.currentSet + 1 ≥ (r.result.length : Int)
  · refine ⟨{ r with current := -1, currentSet := r.currentSet + 1 }, ?_, rfl, rfl,
      rfl, herr, fun hlt => absurd hlt (not_lt.mpr hb)⟩
    rw [if_pos hb, decide_eq_false (not_lt.mpr hb)]
  · have hlt : r.currentSet + 1 < (r.result.length : Int) := lt_of_not_ge hb
    obtain ⟨rsNew, hidx⟩ := goIndex_some r.result (r.currentSet + 1)
      (by omega) hlt
    refine ⟨{ r with current := -1, currentSet := r.currentSet + 1, rs := some rsNew }, ?_, rfl, rfl, rfl, herr, fun _ => by rw [hidx]⟩
    rw [if_neg hb]
    simp only [hidx]
    rw [decide_eq_true hlt]

lemma next_cases (r : RowsState) (b : Bool) (r2 : RowsState)
    (h : r.next = some (b, r2)) :
    r2 = r ∨ r2 = { r with current := r.current + 1 } := by
  cases he : r.errOf with
  | none =>
    unfold RowsState.next at h
    rw [he] at h
    exact absurd h (by simp)
  | some eo =>
    cases eo with
    | some e =>
      unfold RowsState.next at h
      rw [he] at h
      exact Or.inl (congrArg Prod.snd (Option.some.inj h)).symm
    | none =>
      obtain ⟨-, -, rsA, hrs, -⟩ := errOf_none_cases r he
      rw [next_step r rsA he hrs] at h
      exact Or.inr (congrArg Prod.snd (Option.some.inj h)).symm

lemma nextSet_cases (r : RowsState) (b : Bool) (r2 : RowsState)
    (hge : 0 ≤ r.currentSet) (h : r.nextSet = some (b, r2)) :
    r2 = r ∨
      (r.errOf = some none ∧ r2.current = -1 ∧
        r2.currentSet = r.currentSet + 1 ∧ r2.result = r.result ∧
        r2.err = none ∧
        (r.currentSet + 1 < (r.result.length : Int) →
          goIndex r.result (r.currentSet + 1) = r2.rs)) := by
  cases he : r.errOf with
  | none =>
    unfold RowsState.nextSet at h
    rw [he] at h
    exact absurd h (by simp)
  | some eo =>
    cases eo with
    | some e =>
      unfold RowsState.nextSet at h
      rw [he] at h
      exact Or.inl (congrArg Prod.snd (Option.some.inj h)).symm
    | none =>
      obtain ⟨r', hEq, hc, hcs, hres, herr2, hrsc⟩ := nextSet_step r he hge
      rw [hEq] at h
      have h2 : r' = r2 := congrArg Prod.snd (Option.some.inj h)
      subst h2
      exact Or.inr ⟨rfl, hc, hcs, hres, herr2, hrsc⟩

lemma rowsInv_init (res : List RawQueryResult) (e : Option GoError) :
    RowsInv (newRows res e) := by
  cases e with
  | some e =>
    refine ⟨le_refl 0, by simp [newRows], by norm_num [newRows], fun h => ?_⟩
    simp [newRows] at h
  | none =>
    refine ⟨le_refl 0, by simp [newRows], le_refl (-1), fun _ hlt => ?_⟩
    show goIndex res 0 = res.head?
    cases res with
    | nil => simp [newRows] at hlt
    | cons x xs => rfl

lemma rowsInv_step (r r' : RowsState) (op : RowsOp) (hInv : RowsInv r)
    (h : applyOp r op = some r') : RowsInv r' := by
  obtain ⟨h0, h1, h2, h3⟩ := hInv
  cases op with
  | next =>
    simp only [applyOp] at h
    cases hn : r.next with
    | none => rw [hn] at h; exact absurd h (by simp)
    | some p =>
      obtain ⟨b, r2⟩ := p
      rw [hn] at h
      have hr : r2 = r' := Option.some.inj h
      subst hr
      rcases next_cases r b r2 hn with rfl | rfl
      · exact ⟨h0, h1, h2, h3⟩
      · exact ⟨h0, h1, by show -1 ≤ r.current + 1; omega, h3⟩
  | nextSet =>
    simp only [applyOp] at h
    cases hn : r.nextSet with
    | none => rw [hn] at h; exact absurd h (by simp)
    | some p =>
      obtain ⟨b, r2⟩ := p
      rw [hn] at h
      have hr : r2 = r' := Option.some.inj h
      subst hr
      rcases nextSet_cases r b r2 h0 hn with rfl | ⟨he, hc, hcs, hres, herr2, hrsc⟩
      · exact ⟨h0, h1, h2, h3⟩
      · obtain ⟨-, hlt, -⟩ := errOf_none_cases r he
        refine ⟨by omega, ?_, by omega, fun _ hlt2 => ?_⟩
        · rw [hcs, hres]
          exact_mod_cast hlt
        · rw [hres, hcs]
          rw [hcs, hres] at hlt2
          exact hrsc hlt2
  | scan dests =>
    simp only [applyOp] at h
    cases hs : r.scan dests with
    | none => rw [hs] at h; exact absurd h (by simp)
    | some out =>
      rw [hs] at h
      have hr : r = r' := Option.some.inj h
      subst hr
      exact ⟨h0, h1, h2, h3⟩

lemma rowsInv_ops (ops : List RowsOp) :
    ∀ (r r' : RowsState), RowsInv r → applyOps r ops = some r' → RowsInv r' := by
  induction ops with
  | nil =>
    intro r r' hInv h
    simp only [applyOps] at h
    rw [← Option.some.inj h]
    exact hInv
  | cons op ops ih =>
    intro r r' hInv h
    simp only [applyOps] at h
    cases ho : applyOp r op with
    | none => rw [ho] at h; exact absurd h (by simp)
    | some r2 =>
      rw [ho] at h
      exact ih r2 r' (rowsInv_step r r2 op hInv ho) h

lemma next_false_at_end (r : RowsState) (rsA : RawQueryResult)
    (he : r.errOf = some none) (hrs : r.rs = some rsA)
    (hend : (rsA.results.rows.length : Int) ≤ r.current) :
    r.next = some (false, { r with current := r.current + 1 }) := by
  rw [next_step r rsA he hrs, decide_eq_false (by omega)]

lemma errOf_carried (r : RowsState) (e : GoError) (h : r.err = some e) :
    r.errOf = some (some e) := by
  unfold RowsState.errOf
  rw [h]

lemma ops_noop_on_error (r : RowsState) (e : GoError) (h : r.err = some e) :
    r.next = some (false, r) ∧ r.nextSet = some (false, r) ∧
      ∀ dests, r.scan dests = some (dests, some e) := by
  have he := errOf_carried r e h
  refine ⟨?_, ?_, fun dests => ?_⟩
  · unfold RowsState.next
    rw [he]
  · unfold RowsState.nextSet
    rw [he]
  · unfold RowsState.scan
    rw [he]

end CursorLemmas

section MapAndParamLemmas

lemma fieldMapStep_eq (m : FieldMap) (i : Nat) (f : GoStructField) :
    fieldMapStep m i f =
      (match specFieldKey f with
       | some k => mapInsert m k i
       | none => m) := by
  unfold fieldMapStep specFieldKey
  split_ifs <;> rfl

lemma createFieldMapFrom_eq :
    ∀ (fields : List GoStructField) (i : Nat) (m : FieldMap),
      createFieldMapFrom i m fields = specFieldMapFrom i m fields := by
  intro fields
  induction fields with
  | nil => intro i m; rfl
  | cons f rest ih =>
    intro i m
    simp only [createFieldMapFrom, specFieldMapFrom, fieldMapStep_eq]
    exact ih _ _

lemma convertParam_idem (v : GoVal) :
    convertParam (convertParam v) = convertParam v := by
  cases v <;> first
    | rfl
    | (simp only [convertParam]; split_ifs <;> rfl)

end MapAndParamLemmas

lemma errOf_empty_active (rs0 : RawQueryResult) (rest : List RawQueryResult)
    (hN : rs0.results.rows.length = 0) :
    (newRows (rs0 :: rest) none).errOf = some (some .noRows) := by
  unfold newRows RowsState.errOf
  have hcond : ¬ ((0 : Int) ≥ (((rs0 :: rest).length : Nat) : Int)) := by
    simp only [List.length_cons]
    push_cast
    omega
  simp only [List.head?]
  rw [if_neg hcond, if_pos hN]

/-- Claim C1.  The claim states that coercing any signed or unsigned integer
source of any width into a string destination yields its decimal digits.
The code achieves this only for the unsized `int` and `uint` kinds: the
digit-formatting guard in `assign` (src/rows.go line 536) tests
`st.Kind() == reflect.Int || st.Kind() == reflect.Uint`, so every sized
width (int8..int64, uint8..uint64) falls through to the `ConvertibleTo`
fast path, which performs Go's integer→string rune conversion: 42 becomes
"*", not "42".  This contradicts the comment directly above the guard and
leaves the sized cases of the inner switch unreachable, so it is a code
bug rather than a spec error. -/
theorem assign_int_to_string_digits_only_for_unsized :
    assign .stringT (.intV .w8 42) = .ok (.strV "*") ∧
    assign .stringT (.intV .w16 42) = .ok (.strV "*") ∧
    assign .stringT (.intV .w32 42) = .ok (.strV "*") ∧
    assign .stringT (.intV .w64 42) = .ok (.strV "*") ∧
    assign .stringT (.uintV .w8 42) = .ok (.strV "*") ∧
    assign .stringT (.uintV .w16 42) = .ok (.strV "*") ∧
    assign .stringT (.uintV .w32 42) = .ok (.strV "*") ∧
    assign .stringT (.uintV .w64 42) = .ok (.strV "*") ∧
    assign .stringT (.intV .w 42) = .ok (.strV "42") ∧
    assign .stringT (.uintV .w 42) = .ok (.strV "42") :=
  ⟨rfl, rfl, rfl, rfl, rfl, rfl, rfl, rfl, rfl, rfl⟩

/-- Claim C2.  Coercing a null source into any supported destination kind
(string, every signed and unsigned integer width, float32/float64, bool,
`[]byte`, `time.Time`) zero-initializes the destination and returns no
error: the nil fast path of `assign` runs before any other logic. -/
theorem assign_null_zeroes_destination :
    ∀ dt : GoType, assign dt .null = .ok (zeroVal dt) :=
  fun _ => rfl

/-- Claim C2, witness: a null source zeroes an `int` destination. -/
theorem assign_null_zeroes_destination_witness :
    assign (.intT .w) .null = .ok (zeroVal (.intT .w)) :=
  assign_null_zeroes_destination (.intT .w)

/-- Claim C3.  The claim states that `Handle.QueryRow` turns an execution
error into a `Row` carrying that error.  In the code,
`newRow(&result[0], err)` evaluates `&result[0]` before calling `newRow`,
and on the error path `Client.RawQuery` returns a nil result slice, so the
index expression panics (modelled by `none`) for every carried error; the
error-carrying branch of `newRow` is unreachable from `QueryRow`.  This
contradicts the documented behavior ("returns a single row of results as a
Row object, suitable for calling Scan"), so it is a code bug. -/
theorem queryRow_error_path_panics :
    ∀ e : GoError, handleQueryRow [] (some e) = none :=
  fun _ => rfl

/-- Claim C3, witness: a query that fails with the SQLite sentinel error
panics in `QueryRow` instead of producing an error-carrying `Row`. -/
theorem queryRow_error_path_panics_witness :
    handleQueryRow [] (some .errSQLite) = none :=
  queryRow_error_path_panics .errSQLite

/-- Claim C4.  The claim states that `Rows.Scan` never panics, returning
the no-rows sentinel whenever no row is current — including the initial
before-first-row position `current = -1`.  The code checks only the upper
bound `current >= len(rows)`, so at the initial position of a cursor over a
non-empty result set (`Err()` nil, shown by the second conjunct) the access
`rows[-1]` panics (modelled by `none`). -/
theorem rows_scan_at_initial_position_panics :
    ((newRows [⟨⟨["id"], [[.intV .w 1]]⟩⟩] none).scan
        [(.intT .w, .intV .w 0)] = none) ∧
    ((newRows [⟨⟨["id"], [[.intV .w 1]]⟩⟩] none).errOf = some none) ∧
    ((newRows [⟨⟨["id"], [[.intV .w 1]]⟩⟩] none).current = -1) :=
  ⟨rfl, rfl, rfl⟩

/-- Claim C5, counterexample.  On a cursor whose active (first) set is
empty while a further non-empty set remains, `NextSet()` returns false and
does not advance — `Err()` is the no-rows sentinel, and the `Err()` guard
runs first — refuting "advances to the next set returning true while
further sets remain". -/
theorem nextSet_false_with_set_remaining :
    ((newRows [⟨⟨["a"], []⟩⟩, ⟨⟨["a"], [[.intV .w 1]]⟩⟩] none).nextSet =
      some (false, newRows [⟨⟨["a"], []⟩⟩, ⟨⟨["a"], [[.intV .w 1]]⟩⟩] none)) ∧
    ((newRows [⟨⟨["a"], []⟩⟩, ⟨⟨["a"], [[.intV .w 1]]⟩⟩] none).currentSet + 1 <
      (((newRows [⟨⟨["a"], []⟩⟩, ⟨⟨["a"], [[.intV .w 1]]⟩⟩] none).result.length :
        Nat) : Int)) :=
  ⟨rfl, by norm_num [newRows]⟩

/-- Claim C5 as amended.  For a cursor over a non-empty sequence of result
sets whose active set has N rows, starting before the first row, the first
N calls to `Next()` return true and the (N+1)-th returns false.  `NextSet()`
— provided `Err()` is nil, in particular the active set is non-empty —
resets the row cursor to before-first and advances to the next set,
returning true exactly while further sets remain; when the cursor carries
an error (or the active set is empty, making `Err()` non-nil), `NextSet()`
returns false without advancing. -/
theorem rows_iteration_behavior :
    (∀ (rs0 : RawQueryResult) (rest : List RawQueryResult) (k : Nat),
        1 ≤ k → k ≤ rs0.results.rows.length →
        nthNext (newRows (rs0 :: rest) none) k = some true) ∧
    (∀ (rs0 : RawQueryResult) (rest : List RawQueryResult),
        nthNext (newRows (rs0 :: rest) none)
          (rs0.results.rows.length + 1) = some false) ∧
    (∀ (r : RowsState), r.errOf = some none → 0 ≤ r.currentSet →
        ∃ r', r.nextSet =
            some (decide (r.currentSet + 1 < (r.result.length : Int)), r') ∧
          r'.current = -1 ∧ r'.currentSet = r.currentSet + 1 ∧
          r'.result = r.result ∧ r'.err = none) ∧
    (∀ (r : RowsState) (e : GoError), r.err = some e →
        r.nextSet = some (false, r)) := by
  refine ⟨?_, ?_, ?_, ?_⟩
  · intro rs0 rest k hk1 hkN
    have hlen : rs0.results.rows.length ≠ 0 := by omega
    have hfresh : newRows (rs0 :: rest) none = freshAt (rs0 :: rest) rs0 (-1) := rfl
    rw [hfresh, nthNext_fresh (rs0 :: rest) rs0 (by simp) hlen k hk1]
    rw [decide_eq_true (by omega : ((k : Int) - 1 < (rs0.results.rows.length : Int)))]
  · intro rs0 rest
    by_cases hN : rs0.results.rows.length = 0
    · have he := errOf_empty_active rs0 rest hN
      unfold nthNext
      rw [hN]
      simp only [Nat.zero_add, Nat.sub_self]
      show (match (newRows (rs0 :: rest) none).next with
        | none => none
        | some (b, _) => some b) = some false
      unfold RowsState.next
      rw [he]
    · have hfresh : newRows (rs0 :: rest) none = freshAt (rs0 :: rest) rs0 (-1) := rfl
      rw [hfresh, nthNext_fresh (rs0 :: rest) rs0 (by simp) hN _ (by omega)]
      rw [decide_eq_false
        (by push_cast; omega :
          ¬ (((rs0.results.rows.length + 1 : Nat) : Int) - 1 <
            (rs0.results.rows.length : Int)))]
  · intro r he hge
    obtain ⟨r', hEq, hc, hcs, hres, herr, -⟩ := nextSet_step r he hge
    exact ⟨r', hEq, hc, hcs, hres, herr⟩
  · intro r e h
    exact (ops_noop_on_error r e h).2.1

/-- Claim C5, witness for the amended theorem: a cursor over two result
sets whose first set has 2 rows — Next is true twice then false, and the
first NextSet call advances returning true (a further set remains). -/
theorem rows_iteration_behavior_witness :
    (nthNext (newRows [⟨⟨["id"], [[.intV .w 1], [.intV .w 2]]⟩⟩,
        ⟨⟨["id"], [[.intV .w 3]]⟩⟩] none) 2 = some true) ∧
    (nthNext (newRows [⟨⟨["id"], [[.intV .w 1], [.intV .w 2]]⟩⟩,
        ⟨⟨["id"], [[.intV .w 3]]⟩⟩] none) 3 = some false) ∧
    (∃ r', (newRows [⟨⟨["id"], [[.intV .w 1], [.intV .w 2]]⟩⟩,
          ⟨⟨["id"], [[.intV .w 3]]⟩⟩] none).nextSet =
        some (decide ((newRows [⟨⟨["id"], [[.intV .w 1], [.intV .w 2]]⟩⟩,
            ⟨⟨["id"], [[.intV .w 3]]⟩⟩] none).currentSet + 1 <
          ((newRows [⟨⟨["id"], [[.intV .w 1], [.intV .w 2]]⟩⟩,
            ⟨⟨["id"], [[.intV .w 3]]⟩⟩] none).result.length : Int)), r') ∧
        r'.current = -1 ∧
        r'.currentSet = (newRows [⟨⟨["id"], [[.intV .w 1], [.intV .w 2]]⟩⟩,
            ⟨⟨["id"], [[.intV .w 3]]⟩⟩] none).currentSet + 1 ∧
        r'.result = (newRows [⟨⟨["id"], [[.intV .w 1], [.intV .w 2]]⟩⟩,
            ⟨⟨["id"], [[.intV .w 3]]⟩⟩] none).result ∧
        r'.err = none) ∧
    ((newRows [] (some .errSQLite)).nextSet =
      some (false, newRows [] (some .errSQLite))) := by
  obtain ⟨h1, h2, h3, h4⟩ := rows_iteration_behavior
  exact ⟨h1 _ _ 2 (by omega) (by norm_num), h2 _ _,
    h3 _ rfl (by norm_num [newRows]), h4 _ .errSQLite rfl⟩

/-- Claim C6, counterexample.  On a cursor over one result set with one row
(rowCount = 1), the cursor sits at `current = 1 = rowCount` after two
`Next()` calls, and a third `Next()` call still mutates the state, moving
`current` to 2 — outside the claimed invariant `current ∈ [-1, rowCount)`
and contradicting "returns false without further mutating the cursor
state". -/
theorem next_keeps_mutating_after_exhaustion :
    ((applyNexts 2 (newRows [⟨⟨["a"], [[.intV .w 1]]⟩⟩] none)).map
        RowsState.current = some 1) ∧
    ((applyNexts 3 (newRows [⟨⟨["a"], [[.intV .w 1]]⟩⟩] none)).map
        RowsState.current = some 2) ∧
    ¬ ((2 : Int) <
      (((⟨⟨["a"], [[.intV .w 1]]⟩⟩ : RawQueryResult).results.rows.length :
        Nat) : Int)) :=
  ⟨rfl, rfl, by norm_num⟩

/-- Claim C6 as amended.  Every state reachable from a constructed cursor
by `Next()`, `NextSet()` and `Scan()` satisfies `currentSet ∈ [0, N]` and
`current ≥ -1`, with the active-set pointer aliasing `result[currentSet]`
while `currentSet` is in range (`RowsInv`); `current` is not bounded above:
once it reaches the active set's row count, further `Next()` calls return
false but still increment `current` by one each; and on a cursor carrying
an error neither `Next()` nor `NextSet()` mutates the state. -/
theorem rows_cursor_invariant :
    (∀ (res : List RawQueryResult) (e : Option GoError) (ops : List RowsOp)
        (r' : RowsState),
        applyOps (newRows res e) ops = some r' → RowsInv r') ∧
    (∀ (r : RowsState) (rsA : RawQueryResult),
        r.errOf = some none → r.rs = some rsA →
        (rsA.results.rows.length : Int) ≤ r.current →
        r.next = some (false, { r with current := r.current + 1 })) ∧
    (∀ (r : RowsState) (e : GoError), r.err = some e →
        r.next = some (false, r) ∧ r.nextSet = some (false, r)) := by
  refine ⟨?_, next_false_at_end, ?_⟩
  · intro res e ops r' h
    exact rowsInv_ops ops (newRows res e) r' (rowsInv_init res e) h
  · intro r e h
    exact ⟨(ops_noop_on_error r e h).1, (ops_noop_on_error r e h).2.1⟩

/-- Claim C6, witness for the amended theorem: the invariant holds for the
state reached by three `Next()` calls past a single one-row set, and the
third call returned false while incrementing `current` from 1 to 2. -/
theorem rows_cursor_invariant_witness :
    RowsInv ⟨[⟨⟨["a"], [[.intV .w 1]]⟩⟩], some ⟨⟨["a"], [[.intV .w 1]]⟩⟩,
      2, 0, none⟩ ∧
    ((⟨[⟨⟨["a"], [[.intV .w 1]]⟩⟩], some ⟨⟨["a"], [[.intV .w 1]]⟩⟩,
        1, 0, none⟩ : RowsState).next =
      some (false, ⟨[⟨⟨["a"], [[.intV .w 1]]⟩⟩],
        some ⟨⟨["a"], [[.intV .w 1]]⟩⟩, 2, 0, none⟩)) ∧
    ((newRows [] (some .errNotFound)).next =
      some (false, newRows [] (some .errNotFound))) := by
  obtain ⟨h1, h2, h3⟩ := rows_cursor_invariant
  refine ⟨h1 [⟨⟨["a"], [[.intV .w 1]]⟩⟩] none [.next, .next, .next] _ rfl,
    ?_, (h3 _ .errNotFound rfl).1⟩
  exact h2 _ ⟨⟨["a"], [[.intV .w 1]]⟩⟩ rfl rfl (by norm_num)

/-- Claim C7.  `convertSQLiteError` re-classifies a remote-service error
with code 7500 into a `SQLiteError` carrying the statement text and
bindings: when the message contains the marker `": SQLITE_"`, the
`SQLiteError` message is the part before the marker's first occurrence and
the engine token is `"SQLITE_"` plus the part after it; when the marker is
absent the token falls back to `"SQLITE_ERROR"`; errors with another code,
or of another kind, are returned unchanged. -/
theorem convertSQLiteError_classification :
    (∀ (q : String) (bs : List GoVal) (msg : String) (pre post : List Char),
        splitFirst sqliteMarker msg.data = some (pre, post) →
        convertSQLiteError (.d1 7500 msg) q bs =
            .sqlite (String.mk pre) q bs
              (String.mk (("SQLITE_").data ++ post)) ∧
          msg.data = pre ++ sqliteMarker ++ post ∧
          (∀ pre' post', msg.data = pre' ++ sqliteMarker ++ post' →
            pre.length ≤ pre'.length)) ∧
    (∀ (q : String) (bs : List GoVal) (msg : String),
        splitFirst sqliteMarker msg.data = none →
        convertSQLiteError (.d1 7500 msg) q bs =
            .sqlite msg q bs "SQLITE_ERROR" ∧
          ∀ pre post, msg.data ≠ pre ++ sqliteMarker ++ post) ∧
    (∀ (q : String) (bs : List GoVal) (code : Int) (msg : String),
        code ≠ 7500 →
        convertSQLiteError (.d1 code msg) q bs = .d1 code msg) ∧
    (∀ (q : String) (bs : List GoVal) (e : GoError), asD1 e = none →
        convertSQLiteError e q bs = e) := by
  refine ⟨?_, ?_, ?_, ?_⟩
  · intro q bs msg pre post h
    refine ⟨?_, splitFirst_sound _ _ _ _ h,
      fun pre' post' hd => splitFirst_minimal sqliteMarker msg.data pre post h pre' post' hd⟩
    simp only [convertSQLiteError, asD1, h]
    rw [if_pos trivial]
  · intro q bs msg h
    refine ⟨?_, splitFirst_complete _ _ h⟩
    simp only [convertSQLiteError, asD1, h]
    rw [if_pos trivial]
  · intro q bs code msg hc
    simp only [convertSQLiteError, asD1, if_neg hc]
  · intro q bs e h
    unfold convertSQLiteError
    rw [h]

/-- Claim C7, witness: the spec's example message splits into message
"near line X" and engine token "SQLITE_CONSTRAINT", carrying the statement
text and bindings; a same-message error with a different code and a
non-D1 error pass through unchanged. -/
theorem convertSQLiteError_classification_witness :
    (convertSQLiteError (.d1 7500 "near line X: SQLITE_CONSTRAINT")
        "INSERT INTO t VALUES (?)" [.intV .w 7] =
      .sqlite "near line X" "INSERT INTO t VALUES (?)" [.intV .w 7]
        "SQLITE_CONSTRAINT") ∧
    ("near line X: SQLITE_CONSTRAINT").data =
      ("near line X").data ++ sqliteMarker ++ ("CONSTRAINT").data ∧
    (convertSQLiteError (.d1 7500 "disk I/O problem") "Q" [] =
      .sqlite "disk I/O problem" "Q" [] "SQLITE_ERROR") ∧
    (convertSQLiteError (.d1 9000 "near line X: SQLITE_CONSTRAINT") "Q" [] =
      .d1 9000 "near line X: SQLITE_CONSTRAINT") ∧
    (convertSQLiteError .errNotFound "Q" [] = .errNotFound) := by
  obtain ⟨h1, h2, h3, h4⟩ := convertSQLiteError_classification
  obtain ⟨ha, hb, -⟩ := h1 "INSERT INTO t VALUES (?)" [.intV .w 7]
    "near line X: SQLITE_CONSTRAINT" ("near line X").data ("CONSTRAINT").data rfl
  exact ⟨ha, hb, (h2 "Q" [] "disk I/O problem" rfl).1,
    h3 "Q" [] 9000 "near line X: SQLITE_CONSTRAINT" (by norm_num),
    h4 "Q" [] .errNotFound rfl⟩

/-- Claim C8, counterexample.  The claim states that every key of the
mapping built by `createFieldMap` is a lower-cased column key.  Annotation
values are in fact used verbatim: a field tagged `db:"ID"` is keyed under
"ID", which is not lower-cased (and its lower-casing "id" — the form
`scanStructWithMap` looks up — is absent). -/
theorem createFieldMap_key_not_lowercased :
    (createFieldMap [⟨"Name", "ID", "", ""⟩] "ID" = some 0) ∧
    (createFieldMap [⟨"Name", "ID", "", ""⟩] "id" = none) ∧
    (strToLower "ID" = "id") ∧ ("ID" ≠ "id") :=
  ⟨rfl, rfl, by decide, by decide⟩

/-- Claim C8 as amended.  `createFieldMap` is deterministic (a pure function
of the ordered field list) and maps each field under the value of the first
present annotation in the fixed priority order db, sql, json; a field whose
winning annotation equals the skip marker "-" is excluded; a field with no
annotation is keyed by its lower-cased name.  Annotation-derived keys are
used verbatim (not lower-cased); only the fallback key is lower-cased.
This is stated as a refinement: the loop of `createFieldMap` builds exactly
the mapping obtained by inserting, in field order, each field's key as
selected by the spec-side rule `specFieldKey`. -/
theorem createFieldMap_matches_spec_keys :
    ∀ fields : List GoStructField,
      createFieldMap fields = specFieldMap fields :=
  fun fields => createFieldMapFrom_eq fields 0 (fun _ => none)

/-- Claim C8, witness: the refinement at a concrete struct type exercising
a verbatim db tag, a skipped field, a sql tag, and the lower-cased-name
fallback. -/
theorem createFieldMap_matches_spec_keys_witness :
    createFieldMap [⟨"Name", "ID", "", ""⟩, ⟨"Secret", "-", "x", ""⟩,
        ⟨"Age", "", "age_col", ""⟩, ⟨"City", "", "", ""⟩] =
      specFieldMap [⟨"Name", "ID", "", ""⟩, ⟨"Secret", "-", "x", ""⟩,
        ⟨"Age", "", "age_col", ""⟩, ⟨"City", "", "", ""⟩] :=
  createFieldMap_matches_spec_keys _

/-- Claim C9.  For a `Row` or `Rows` cursor with a nil `Err()` and a current
row, `Scan` runs the positional loop `scanVals` on the current row: the
loop preserves the number of destinations, leaves destinations at positions
at or beyond the row's column count unmodified, ignores column values at
positions beyond the destination count (the result only depends on the
first `|dests|` values), and produces no error when every performed
per-column assignment succeeds — exhaustion of either list is not an
error. -/
theorem scan_positional_and_frame :
    (∀ (i : Nat) (row : List GoVal) (dests : List Slot),
        (scanVals i row dests).1.length = dests.length ∧
        (∀ j, row.length ≤ j → (scanVals i row dests).1[j]? = dests[j]?) ∧
        scanVals i (row.take dests.length) dests = scanVals i row dests ∧
        ((∀ j t old v, dests.get? j = some (t, old) → row.get? j = some v →
            ∃ wv, assign t v = .ok wv) → (scanVals i row dests).2 = none)) ∧
    (∀ (r : Row) (dests : List Slot) (rs : RawQueryResult)
        (row : List GoVal) (rest : List (List GoVal)),
        r.errOf = none → r.result = some rs → rs.results.rows = row :: rest →
        r.scan dests = some (scanVals 0 row dests)) ∧
    (∀ (r : RowsState) (dests : List Slot) (rsA : RawQueryResult)
        (row : List GoVal),
        r.errOf = some none → r.rs = some rsA →
        goIndex rsA.results.rows r.current = some row →
        r.scan dests = some (scanVals 0 row dests)) := by
  refine ⟨fun i row dests => ⟨scanVals_length i row dests,
    scanVals_frame i row dests, scanVals_take i row dests,
    scanVals_ok i row dests⟩, ?_, ?_⟩
  · intro r dests rs row rest he hres hrows
    simp only [Row.scan, he, hres, hrows]
  · intro r dests rsA row he hrs hidx
    have h0 : ¬ r.current < 0 := by
      intro hneg
      unfold goIndex at hidx
      rw [if_pos hneg] at hidx
      cases hidx
    have hlt : r.current < (rsA.results.rows.length : Int) := by
      unfold goIndex at hidx
      rw [if_neg h0] at hidx
      obtain ⟨hh, -⟩ := List.get?_eq_some.mp hidx
      omega
    simp only [RowsState.scan, he, hrs]
    rw [if_neg (not_le.mpr hlt), hidx]

/-- Claim C9, witness: scanning the row (1, "Alice") into a single integer
destination through both cursor types — the second destination-free column
is ignored, a position past the row is untouched, and no error arises. -/
theorem scan_positional_and_frame_witness :
    ((scanVals 0 [.intV .w 1, .strV "Alice"]
        [(.intT .w, .intV .w 0)]).1.length = 1) ∧
    ((scanVals 0 [.intV .w 1, .strV "Alice"]
        [(.intT .w, .intV .w 0)]).1[3]? =
      ([(.intT .w, .intV .w 0)] : List Slot)[3]?) ∧
    (scanVals 0 ([.intV .w 1, .strV "Alice"].take 1)
        [(.intT .w, .intV .w 0)] =
      scanVals 0 [.intV .w 1, .strV "Alice"] [(.intT .w, .intV .w 0)]) ∧
    ((Row.mk (some ⟨⟨["id", "name"],
          [[.intV .w 1, .strV "Alice"]]⟩⟩) none).scan
        [(.intT .w, .intV .w 0)] =
      some (scanVals 0 [.intV .w 1, .strV "Alice"]
        [(.intT .w, .intV .w 0)])) ∧
    ((⟨[⟨⟨["id", "name"], [[.intV .w 1, .strV "Alice"]]⟩⟩],
        some ⟨⟨["id", "name"], [[.intV .w 1, .strV "Alice"]]⟩⟩,
        0, 0, none⟩ : RowsState).scan [(.intT .w, .intV .w 0)] =
      some (scanVals 0 [.intV .w 1, .strV "Alice"]
        [(.intT .w, .intV .w 0)])) := by
  obtain ⟨h1, h2, h3⟩ := scan_positional_and_frame
  obtain ⟨ha, hb, hc, -⟩ := h1 0 [.intV .w 1, .strV "Alice"]
    [(.intT .w, .intV .w 0)]
  exact ⟨ha, hb 3 (by norm_num), hc,
    h2 _ _ ⟨⟨["id", "name"], [[.intV .w 1, .strV "Alice"]]⟩⟩
      [.intV .w 1, .strV "Alice"] [] rfl rfl rfl,
    h3 _ _ ⟨⟨["id", "name"], [[.intV .w 1, .strV "Alice"]]⟩⟩
      [.intV .w 1, .strV "Alice"] rfl rfl rfl⟩

/-- Claim C10.  Parameters submitted through `Client.Query` and
`Client.RawQuery` pass through `convertTypes` before submission: every bool
becomes 1 or 0, every `time.Time` becomes its UTC Unix seconds (0 for the
zero time), everything else passes through unchanged, and the
transformation is idempotent — `Client.Query` in fact applies it twice,
which idempotence collapses to a single application. -/
theorem convertTypes_characterization :
    (∀ ps : List GoVal, clientQueryParams ps = convertTypes ps) ∧
    (∀ ps : List GoVal, clientRawQueryParams ps = convertTypes ps) ∧
    (∀ ps : List GoVal, convertTypes (convertTypes ps) = convertTypes ps) ∧
    (∀ b : Bool, convertParam (.boolV b) = .intV .w (if b then 1 else 0)) ∧
    (convertParam (.timeV zeroGoTime) = .intV .w 0) ∧
    (∀ t : GoTime, t ≠ zeroGoTime →
      convertParam (.timeV t) = .intV .w t.unix) ∧
    (∀ v : GoVal, (∀ b, v ≠ .boolV b) → (∀ t, v ≠ .timeV t) →
      convertParam v = v) ∧
    (∀ ps : List GoVal, convertTypes ps = ps.map convertParam) := by
  have hidem : ∀ ps : List GoVal,
      convertTypes (convertTypes ps) = convertTypes ps := by
    intro ps
    unfold convertTypes
    rw [List.map_map]
    exact List.map_congr_left fun v _ => convertParam_idem v
  refine ⟨fun ps => hidem ps, fun _ => rfl, hidem, fun b => rfl, rfl, ?_, ?_, fun _ => rfl⟩
  · intro t ht
    simp only [convertParam, if_neg ht]
  · intro v hb ht
    cases v with
    | boolV b => exact absurd rfl (hb b)
    | timeV t => exact absurd rfl (ht t)
    | null => rfl
    | intV k x => rfl
    | uintV k x => rfl
    | floatV x => rfl
    | strV s => rfl
    | bytesV s => rfl

/-- Claim C10, witness: a concrete parameter list with a bool, a non-zero
timestamp, the zero timestamp, and a pass-through string. -/
theorem convertTypes_characterization_witness :
    (clientQueryParams [.boolV true, .timeV ⟨1257894000⟩, .timeV zeroGoTime,
        .strV "x"] =
      convertTypes [.boolV true, .timeV ⟨1257894000⟩, .timeV zeroGoTime,
        .strV "x"]) ∧
    (convertParam (.timeV ⟨1257894000⟩) = .intV .w 1257894000) ∧
    (convertParam (.strV "x") = .strV "x") := by
  obtain ⟨h1, -, -, -, -, h6, h7, -⟩ := convertTypes_characterization
  exact ⟨h1 _, h6 ⟨1257894000⟩ (by decide), h7 (.strV "x")
    (fun b h => by cases h) (fun t h => by cases h)⟩

end Cfd1
